import Mathlib

/-!
Formal model of the tower resource-governance middleware crates
(tower-in-flight-limit, tower-rate-limit, tower-timeout, tower-watch).

Each middleware is shallowly embedded: the instance-local state and the
shared state are explicit Lean structures, and every Rust method becomes a
pure Lean function from the pre-state (plus the results the environment
would deliver, such as the poll result of the inner future or of a timer)
to the post-state and the observable outcome.  `usize` arithmetic is
modelled as `Nat` with wrap-around modulo `2 ^ 64` at the operations that
can overflow.
-/

/-- Result of polling a futures 0.1 future: `Ok(NotReady)`, `Ok(Ready(v))`
or `Err(e)`. -/
inductive PollRes (V E : Type) where
  | notReady
  | ready (v : V)
  | err (e : E)
deriving DecidableEq

namespace InFlight

/-- The value `usize::MAX + 1`: arithmetic on the atomic counter wraps modulo this. -/
def USIZE : Nat := 18446744073709551616

lemma two_lt_USIZE : 2 < USIZE := by unfold USIZE; omega

/-- The `Shared` block of tower-in-flight-limit: the fixed maximum and the
current in-flight counter (the `AtomicTask` waiter slot carries no data
relevant to the counter claims and is omitted). -/
structure Shared where
  max : Nat
  curr : Nat
deriving DecidableEq

/-- The shared state created by `InFlightLimit::new`: counter starts at 0. -/
def Shared.new (max : Nat) : Shared := ⟨max, 0⟩

/-- Model of `Shared::reserve`: load `curr`; if `curr == max` fail, otherwise
compare-and-swap to `curr + 1`.  The CAS retry loop re-runs the same test
on the freshly observed value, so each linearized `reserve` either fails
with the counter at `max` and no change, or increments the counter once.
Returns the success flag and the post-state. -/
def Shared.reserve (s : Shared) : Bool × Shared :=
  if s.curr = s.max then (false, s)
  else (true, ⟨s.max, (s.curr + 1) % USIZE⟩)

/-- Model of `Shared::release`: `fetch_sub(1)` on a `usize`, which wraps modulo
`2 ^ 64`: for `curr < 2 ^ 64` the new value `(curr + 2 ^ 64 - 1) % 2 ^ 64`
is `2 ^ 64 - 1` when `curr = 0` and `curr - 1` otherwise (the source only
`debug_assert!`s that the pre-decrement value is at most `max`). -/
def Shared.release (s : Shared) : Shared :=
  ⟨s.max, if s.curr = 0 then USIZE - 1 else s.curr - 1⟩

/-- An atomic operation on the shared counter, as linearized by the
sequential model: a reservation attempt or a release. -/
inductive Op where
  | reserveOp
  | releaseOp
deriving DecidableEq

/-- Effect of one operation on the shared state. -/
def Shared.step (s : Shared) : Op → Shared
  | .reserveOp => (s.reserve).2
  | .releaseOp => s.release

/-- Run a sequence of operations. -/
def Shared.run (s : Shared) : List Op → Shared
  | [] => s
  | op :: rest => (s.step op).run rest

/-- A sequence is valid from `s` when every release executes in a state
with a positive counter, i.e. releases only follow matching (successful,
still-unreleased) reservations. -/
def validFrom (s : Shared) : List Op → Bool
  | [] => true
  | op :: rest =>
    (match op with
      | Op.releaseOp => decide (0 < s.curr)
      | Op.reserveOp => true)
    && validFrom (s.step op) rest

/-- The counter is at most `m` in every state reached along the run. -/
def boundedRun (m : Nat) (s : Shared) : List Op → Bool
  | [] => decide (s.curr ≤ m)
  | op :: rest => decide (s.curr ≤ m) && boundedRun m (s.step op) rest

lemma step_max (s : Shared) (op : Op) : (s.step op).max = s.max := by
  cases op with
  | reserveOp =>
    show ((s.reserve).2).max = s.max
    unfold Shared.reserve
    by_cases h : s.curr = s.max
    · rw [if_pos h]
    · rw [if_neg h]
  | releaseOp =>
    unfold Shared.step Shared.release
    rfl

lemma reserve_fails_iff (s : Shared) : (s.reserve).1 = false ↔ s.curr = s.max := by
  unfold Shared.reserve
  by_cases h : s.curr = s.max
  · rw [if_pos h]
    simp [h]
  · rw [if_neg h]
    simp [h]

lemma reserve_fail_state (s : Shared) (h : (s.reserve).1 = false) :
    (s.reserve).2 = s := by
  have hc : s.curr = s.max := (reserve_fails_iff s).1 h
  unfold Shared.reserve
  rw [if_pos hc]

lemma reserve_succ_curr (s : Shared) (hm : s.max < USIZE) (h : s.curr ≠ s.max)
    (hb : s.curr ≤ s.max) :
    ((s.reserve).2).curr = s.curr + 1 := by
  unfold Shared.reserve
  rw [if_neg h]
  show (s.curr + 1) % USIZE = s.curr + 1
  exact Nat.mod_eq_of_lt (by omega)

lemma release_curr (s : Shared) (h0 : 0 < s.curr) :
    (s.release).curr = s.curr - 1 := by
  unfold Shared.release
  show (if s.curr = 0 then USIZE - 1 else s.curr - 1) = s.curr - 1
  rw [if_neg (by omega)]

lemma boundedRun_of_valid (m : Nat) (hm : m < USIZE) (ops : List Op) :
    ∀ s : Shared, s.max = m → s.curr ≤ m → validFrom s ops = true →
      boundedRun m s ops = true := by
  induction ops with
  | nil =>
    intro s _ hb _
    unfold boundedRun
    exact decide_eq_true hb
  | cons op rest ih =>
    intro s hmax hb hv
    unfold validFrom at hv
    rw [Bool.and_eq_true] at hv
    obtain ⟨hv1, hv2⟩ := hv
    have hmax' : (s.step op).max = m := by rw [step_max]; exact hmax
    have hstep : (s.step op).curr ≤ m := by
      cases op with
      | reserveOp =>
        show ((s.reserve).2).curr ≤ m
        by_cases h : s.curr = s.max
        · rw [reserve_fail_state s ((reserve_fails_iff s).2 h)]
          exact hb
        · rw [reserve_succ_curr s (by omega) h (by omega)]
          omega
      | releaseOp =>
        have h0 : 0 < s.curr := of_decide_eq_true hv1
        show (s.release).curr ≤ m
        rw [release_curr s h0]
        omega
    have ht := ih (s.step op) hmax' hstep hv2
    unfold boundedRun
    rw [Bool.and_eq_true]
    exact ⟨decide_eq_true hb, ht⟩

/-- C3: starting from `Shared::new(max)` with `max` a `usize`, along every
valid interleaving of reservation attempts and matching releases the
counter satisfies `curr ≤ max` in every reached state (`0 ≤ curr` holds by
the `Nat` typing); a reservation attempt fails exactly when the counter
equals `max`, a failed attempt leaves the state unchanged (admits
nothing), and with `max = 0` no reservation in a bounded state ever
succeeds. -/
theorem inflight_counter_bounded (m : Nat) (ops : List Op) (s : Shared)
    (hm : m < USIZE) (hv : validFrom (Shared.new m) ops = true)
    (hs : s.curr ≤ s.max) :
    boundedRun m (Shared.new m) ops = true
    ∧ ((s.reserve).1 = false ↔ s.curr = s.max)
    ∧ ((s.reserve).1 = false → (s.reserve).2 = s)
    ∧ (s.max = 0 → (s.reserve).1 = false) := by
  refine ⟨?_, reserve_fails_iff s, reserve_fail_state s, ?_⟩
  · exact boundedRun_of_valid m hm ops (Shared.new m) rfl (Nat.zero_le m) hv
  · intro h0
    refine (reserve_fails_iff s).2 ?_
    omega

/-- Witness for C3 at `max = 2` and the operation sequence
reserve, reserve, release, reserve. -/
theorem inflight_counter_bounded_witness :
    (2 < USIZE
      ∧ validFrom (Shared.new 2) [Op.reserveOp, Op.reserveOp, Op.releaseOp, Op.reserveOp] = true
      ∧ (⟨2, 1⟩ : Shared).curr ≤ (⟨2, 1⟩ : Shared).max)
    ∧ (boundedRun 2 (Shared.new 2) [Op.reserveOp, Op.reserveOp, Op.releaseOp, Op.reserveOp] = true
       ∧ (((⟨2, 1⟩ : Shared).reserve).1 = false ↔ (⟨2, 1⟩ : Shared).curr = (⟨2, 1⟩ : Shared).max)
       ∧ (((⟨2, 1⟩ : Shared).reserve).1 = false → ((⟨2, 1⟩ : Shared).reserve).2 = ⟨2, 1⟩)
       ∧ ((⟨2, 1⟩ : Shared).max = 0 → ((⟨2, 1⟩ : Shared).reserve).1 = false)) :=
  ⟨⟨two_lt_USIZE, by decide, by decide⟩,
   inflight_counter_bounded 2 [Op.reserveOp, Op.reserveOp, Op.releaseOp, Op.reserveOp]
     ⟨2, 1⟩ two_lt_USIZE (by decide) (by decide)⟩

/-- The boxed error type surfaced by `InFlightLimit`: either the typed
`NoCapacityError` or a converted inner-service error. -/
inductive IFLError (E : Type) where
  | noCapacity
  | inner (e : E)
deriving DecidableEq

/-- Outcome of one poll of `ResponseFuture`. -/
inductive PollOut (V E : Type) where
  | notReady
  | ready (v : V)
  | err (e : IFLError E)
deriving DecidableEq

/-- The `ResponseFuture` of tower-in-flight-limit, reduced to the datum
its poll and drop behaviour depends on: whether `inner` is `Some` (the
`Arc<Shared>` reference is tracked separately as a release count). -/
structure ResponseFuture where
  hasInner : Bool
deriving DecidableEq

/-- Model of `ResponseFuture::poll`: with `inner = Some(f)`, a `NotReady` from `f`
returns early keeping `inner`; `Ready(v)` or `Err(e)` release the shared
capacity once, set `inner = None` and propagate the outcome; with
`inner = None` the poll returns the `NoCapacityError` and releases
nothing.  The third component counts `Shared::release` calls performed by
this poll. -/
def ResponseFuture.poll {V E : Type} (rf : ResponseFuture) (innerRes : PollRes V E) :
    ResponseFuture × PollOut V E × Nat :=
  if rf.hasInner then
    match innerRes with
    | .notReady => (rf, .notReady, 0)
    | .ready v => (⟨false⟩, .ready v, 1)
    | .err e => (⟨false⟩, .err (.inner e), 1)
  else (⟨false⟩, .err .noCapacity, 0)

/-- Model of `Drop for ResponseFuture`: release once if `inner` is still `Some`. -/
def ResponseFuture.dropReleases (rf : ResponseFuture) : Nat :=
  if rf.hasInner then 1 else 0

/-- Run a sequence of polls, feeding the future the given inner-poll
results, and sum the releases performed. -/
def pollTrace {V E : Type} (rf : ResponseFuture) : List (PollRes V E) → ResponseFuture × Nat
  | [] => (rf, 0)
  | r :: rest =>
    ((pollTrace (rf.poll r).1 rest).1,
     (rf.poll r).2.2 + (pollTrace (rf.poll r).1 rest).2)

/-- Total releases over a whole lifetime: any number of polls, then the
destructor. -/
def lifetimeReleases {V E : Type} (rf : ResponseFuture) (polls : List (PollRes V E)) : Nat :=
  (pollTrace rf polls).2 + ((pollTrace rf polls).1).dropReleases

lemma poll_noInner {V E : Type} (r : PollRes V E) :
    ResponseFuture.poll ⟨false⟩ r = (⟨false⟩, PollOut.err IFLError.noCapacity, 0) := rfl

lemma pollTrace_noInner {V E : Type} (polls : List (PollRes V E)) :
    pollTrace ⟨false⟩ polls = (⟨false⟩, 0) := by
  induction polls with
  | nil => rfl
  | cons r rest ih =>
    unfold pollTrace
    rw [poll_noInner]
    show ((pollTrace ⟨false⟩ rest).1, 0 + (pollTrace ⟨false⟩ rest).2) = (⟨false⟩, 0)
    rw [ih]
    rfl

/-- C2: a pending result that wrapped an admitted invocation
(`inner = Some`) performs exactly one capacity release over its whole
lifetime, for every possible sequence of inner poll results followed by
its destructor: resolving to a value, resolving to an error, and
abandonment before resolution each release exactly once, and a resolved
future that is later dropped does not release again. -/
theorem inflight_release_exactly_once {V E : Type} (polls : List (PollRes V E)) :
    lifetimeReleases ⟨true⟩ polls = 1 := by
  induction polls with
  | nil => rfl
  | cons r rest ih =>
    cases r with
    | notReady =>
      show (0 + (pollTrace ⟨true⟩ rest).2) + ((pollTrace ⟨true⟩ rest).1).dropReleases = 1
      have hrest := ih
      unfold lifetimeReleases at hrest
      omega
    | ready v =>
      show (1 + (pollTrace ⟨false⟩ rest).2) + ((pollTrace ⟨false⟩ rest).1).dropReleases = 1
      rw [pollTrace_noInner]
      rfl
    | err e =>
      show (1 + (pollTrace ⟨false⟩ rest).2) + ((pollTrace ⟨false⟩ rest).1).dropReleases = 1
      rw [pollTrace_noInner]
      rfl

/-- C10: once a pending result has resolved (a poll of the inner future
returned `Ready` or `Err`, releasing once), every further poll returns
the `NoCapacityError` — regardless of the original outcome — and
performs no additional release. -/
theorem inflight_poll_after_resolved {V E : Type} (r r' : PollRes V E)
    (h : r ≠ PollRes.notReady) :
    ((ResponseFuture.poll ⟨true⟩ r).1 = ⟨false⟩
      ∧ ((ResponseFuture.poll ⟨true⟩ r).2).2 = 1)
    ∧ ResponseFuture.poll ((ResponseFuture.poll ⟨true⟩ r).1) r'
        = (⟨false⟩, PollOut.err IFLError.noCapacity, 0) := by
  cases r with
  | notReady => exact absurd rfl h
  | ready v => exact ⟨⟨rfl, rfl⟩, rfl⟩
  | err e => exact ⟨⟨rfl, rfl⟩, rfl⟩

/-- Witness for C10: a future that resolved to the value 7 and is polled
again while the inner future would deliver 9. -/
theorem inflight_poll_after_resolved_witness :
    ((PollRes.ready 7 : PollRes Nat Nat) ≠ PollRes.notReady)
    ∧ (((ResponseFuture.poll ⟨true⟩ (PollRes.ready 7 : PollRes Nat Nat)).1 = ⟨false⟩
         ∧ ((ResponseFuture.poll ⟨true⟩ (PollRes.ready 7 : PollRes Nat Nat)).2).2 = 1)
       ∧ ResponseFuture.poll ((ResponseFuture.poll ⟨true⟩ (PollRes.ready 7 : PollRes Nat Nat)).1)
           (PollRes.ready 9 : PollRes Nat Nat)
           = (⟨false⟩, PollOut.err IFLError.noCapacity, 0)) :=
  ⟨by decide, inflight_poll_after_resolved (PollRes.ready 7) (PollRes.ready 9) (by decide)⟩

/-- The instance-local `State` of an `InFlightLimit` decorator: the shared
block plus the per-instance reservation flag (the inner service is
abstracted away; its poll results are supplied as inputs). -/
structure InFlightLimit where
  shared : Shared
  reserved : Bool
deriving DecidableEq

/-- What `InFlightLimit::call` produces: the post-state of the decorator,
the returned response future, and whether `inner.call` was executed. -/
structure CallResult where
  post : InFlightLimit
  rf : ResponseFuture
  innerCalled : Bool
deriving DecidableEq

/-- Model of `InFlightLimit::call`: a held reservation is consumed (flag cleared)
and the inner service called; otherwise an inline reservation is
attempted, returning on failure a future with `inner = None` without
calling the inner service. -/
def InFlightLimit.call (s : InFlightLimit) : CallResult :=
  if s.reserved then ⟨⟨s.shared, false⟩, ⟨true⟩, true⟩
  else if (s.shared.reserve).1 then ⟨⟨(s.shared.reserve).2, false⟩, ⟨true⟩, true⟩
  else ⟨s, ⟨false⟩, false⟩

lemma reserve_succ_state (s : Shared) (h : s.curr ≠ s.max) :
    (s.reserve).2 = ⟨s.max, (s.curr + 1) % USIZE⟩ := by
  unfold Shared.reserve
  rw [if_neg h]

/-- C6: an invocation made while the instance holds no reservation
attempts an inline reservation; when the counter is at `max` the call
returns a future with `inner = None` (whose poll resolves to the
`NoCapacityError`) and the inner service is never called; otherwise the
counter is incremented, the inner service is called and its future is
wrapped. -/
theorem inflight_call_unreserved {V E : Type} (s : InFlightLimit) (r : PollRes V E)
    (h : s.reserved = false) :
    (s.shared.curr = s.shared.max →
       s.call = ⟨s, ⟨false⟩, false⟩
       ∧ ResponseFuture.poll (⟨false⟩ : ResponseFuture) r
           = (⟨false⟩, PollOut.err IFLError.noCapacity, 0))
    ∧ (s.shared.curr ≠ s.shared.max →
       s.call = ⟨⟨⟨s.shared.max, (s.shared.curr + 1) % USIZE⟩, false⟩, ⟨true⟩, true⟩) := by
  constructor
  · intro hc
    have hfail : (s.shared.reserve).1 = false := (reserve_fails_iff _).2 hc
    refine ⟨?_, poll_noInner r⟩
    unfold InFlightLimit.call
    rw [if_neg (by simp [h]), if_neg (by simp [hfail])]
  · intro hc
    have hsucc : (s.shared.reserve).1 = true := by
      cases hr : (s.shared.reserve).1 with
      | false => exact absurd ((reserve_fails_iff _).1 hr) hc
      | true => rfl
    unfold InFlightLimit.call
    rw [if_neg (by simp [h]), if_pos hsucc, reserve_succ_state s.shared hc]

/-- Witness for C6 at a full gate (`max = 1`, `curr = 1`). -/
theorem inflight_call_unreserved_witness :
    ((⟨⟨1, 1⟩, false⟩ : InFlightLimit).reserved = false)
    ∧ (((⟨⟨1, 1⟩, false⟩ : InFlightLimit).shared.curr
          = (⟨⟨1, 1⟩, false⟩ : InFlightLimit).shared.max →
         (⟨⟨1, 1⟩, false⟩ : InFlightLimit).call = ⟨⟨⟨1, 1⟩, false⟩, ⟨false⟩, false⟩
         ∧ ResponseFuture.poll (⟨false⟩ : ResponseFuture) (PollRes.notReady : PollRes Nat Nat)
             = (⟨false⟩, PollOut.err IFLError.noCapacity, 0))
       ∧ ((⟨⟨1, 1⟩, false⟩ : InFlightLimit).shared.curr
            ≠ (⟨⟨1, 1⟩, false⟩ : InFlightLimit).shared.max →
          (⟨⟨1, 1⟩, false⟩ : InFlightLimit).call
            = ⟨⟨⟨(⟨⟨1, 1⟩, false⟩ : InFlightLimit).shared.max,
                 ((⟨⟨1, 1⟩, false⟩ : InFlightLimit).shared.curr + 1) % USIZE⟩, false⟩,
               ⟨true⟩, true⟩)) :=
  ⟨rfl, inflight_call_unreserved ⟨⟨1, 1⟩, false⟩ (PollRes.notReady : PollRes Nat Nat) rfl⟩

/-- Result an inner service readiness check can deliver. -/
inductive ReadyRes (E : Type) where
  | ready
  | notReady
  | err (e : E)
deriving DecidableEq

/-- Model of `InFlightLimit::poll_ready`: with a held reservation, delegate to the
inner readiness check; otherwise attempt a reservation, returning
`NotReady` on failure (after registering the waiter) and on success
setting the flag and delegating. -/
def InFlightLimit.pollReady {E : Type} (s : InFlightLimit) (innerReady : ReadyRes E) :
    InFlightLimit × ReadyRes E :=
  if s.reserved then (s, innerReady)
  else if (s.shared.reserve).1 then (⟨(s.shared.reserve).2, true⟩, innerReady)
  else (s, .notReady)

/-- Run consecutive readiness checks with no intervening call. -/
def pollReadySeq {E : Type} (s : InFlightLimit) : List (ReadyRes E) → InFlightLimit
  | [] => s
  | r :: rest => pollReadySeq (s.pollReady r).1 rest

lemma pollReady_reserved {E : Type} (s : InFlightLimit) (r : ReadyRes E)
    (h : s.reserved = true) :
    s.pollReady r = (s, r) := by
  unfold InFlightLimit.pollReady
  rw [if_pos h]

lemma pollReadySeq_reserved {E : Type} (s : InFlightLimit) (rs : List (ReadyRes E))
    (h : s.reserved = true) :
    pollReadySeq s rs = s := by
  induction rs with
  | nil => rfl
  | cons r rest ih =>
    unfold pollReadySeq
    rw [pollReady_reserved s r h]
    exact ih

lemma pollReady_cases {E : Type} (s : InFlightLimit) (r : ReadyRes E) :
    (s.pollReady r).1 = s
    ∨ ((s.pollReady r).1.reserved = true
        ∧ ((s.pollReady r).1).shared.curr ≤ s.shared.curr + 1) := by
  unfold InFlightLimit.pollReady
  by_cases h : s.reserved = true
  · rw [if_pos h]
    exact Or.inl rfl
  · rw [if_neg h]
    by_cases h2 : (s.shared.reserve).1 = true
    · rw [if_pos h2]
      refine Or.inr ⟨rfl, ?_⟩
      have hc : s.shared.curr ≠ s.shared.max := by
        intro he
        rw [(reserve_fails_iff _).2 he] at h2
        exact Bool.false_ne_true h2
      show ((s.shared.reserve).2).curr ≤ s.shared.curr + 1
      rw [reserve_succ_state s.shared hc]
      exact Nat.mod_le _ _
    · rw [if_neg h2]
      exact Or.inl rfl

/-- C8: consecutive readiness checks without an intervening invocation
reserve at most once: a check made while the reservation flag is set
delegates and changes nothing (any number of such checks is a no-op on
the decorator state), and over an arbitrary sequence of checks the shared
counter grows by at most one. -/
theorem inflight_no_double_reserve {E : Type} (s t : InFlightLimit) (r : ReadyRes E)
    (rs : List (ReadyRes E)) (h : t.reserved = true) :
    t.pollReady r = (t, r)
    ∧ pollReadySeq t rs = t
    ∧ (pollReadySeq s rs).shared.curr ≤ s.shared.curr + 1 := by
  refine ⟨pollReady_reserved t r h, pollReadySeq_reserved t rs h, ?_⟩
  induction rs generalizing s with
  | nil => exact Nat.le_succ _
  | cons q rest ih =>
    unfold pollReadySeq
    rcases pollReady_cases s q with heq | ⟨hres, hcurr⟩
    · rw [heq]
      exact ih s
    · rw [pollReadySeq_reserved ((s.pollReady q).1) rest hres]
      exact hcurr

/-- Witness for C8: a reserved instance checked once more, and a fresh
instance checked twice. -/
theorem inflight_no_double_reserve_witness :
    ((⟨⟨1, 1⟩, true⟩ : InFlightLimit).reserved = true)
    ∧ ((⟨⟨1, 1⟩, true⟩ : InFlightLimit).pollReady (ReadyRes.ready : ReadyRes Nat)
         = (⟨⟨1, 1⟩, true⟩, ReadyRes.ready)
       ∧ pollReadySeq (⟨⟨1, 1⟩, true⟩ : InFlightLimit)
           [ReadyRes.ready, (ReadyRes.notReady : ReadyRes Nat)] = ⟨⟨1, 1⟩, true⟩
       ∧ (pollReadySeq (⟨⟨2, 0⟩, false⟩ : InFlightLimit)
            [ReadyRes.ready, (ReadyRes.notReady : ReadyRes Nat)]).shared.curr
           ≤ (⟨⟨2, 0⟩, false⟩ : InFlightLimit).shared.curr + 1) :=
  ⟨rfl, inflight_no_double_reserve ⟨⟨2, 0⟩, false⟩ ⟨⟨1, 1⟩, true⟩
     (ReadyRes.ready : ReadyRes Nat) [ReadyRes.ready, ReadyRes.notReady] rfl⟩

/-- Model of `Drop for State`: number of releases performed. -/
def InFlightLimit.dropReleases (s : InFlightLimit) : Nat :=
  if s.reserved then 1 else 0

/-- Model of `Drop for State`: effect on the shared counter. -/
def InFlightLimit.dropShared (s : InFlightLimit) : Shared :=
  if s.reserved then s.shared.release else s.shared

/-- Model of `Clone for State`: the clone shares the block but starts unreserved. -/
def InFlightLimit.cloneState (s : InFlightLimit) : InFlightLimit :=
  ⟨s.shared, false⟩

lemma release_max (s : Shared) : (s.release).max = s.max := by
  unfold Shared.release
  rfl

/-- C9: dropping a decorator instance that holds an unconsumed
reservation performs exactly one release, decrementing the shared
counter; dropping an instance without a reservation releases nothing;
and a cloned instance starts without a reservation while sharing the
same block. -/
theorem inflight_state_drop_release (s : InFlightLimit)
    (h0 : s.reserved = true → 0 < s.shared.curr) :
    (s.reserved = true →
       s.dropReleases = 1 ∧ (s.dropShared).curr = s.shared.curr - 1
       ∧ (s.dropShared).max = s.shared.max)
    ∧ (s.reserved = false → s.dropReleases = 0 ∧ s.dropShared = s.shared)
    ∧ (s.cloneState).reserved = false ∧ (s.cloneState).shared = s.shared := by
  refine ⟨?_, ?_, rfl, rfl⟩
  · intro h
    unfold InFlightLimit.dropReleases InFlightLimit.dropShared
    rw [if_pos h, if_pos h]
    exact ⟨rfl, release_curr s.shared (h0 h), release_max s.shared⟩
  · intro h
    unfold InFlightLimit.dropReleases InFlightLimit.dropShared
    rw [if_neg (by simp [h]), if_neg (by simp [h])]
    exact ⟨rfl, rfl⟩

/-- Witness for C9: an instance holding a reservation with counter 2. -/
theorem inflight_state_drop_release_witness :
    ((⟨⟨3, 2⟩, true⟩ : InFlightLimit).reserved = true → 0 < (⟨⟨3, 2⟩, true⟩ : InFlightLimit).shared.curr)
    ∧ (((⟨⟨3, 2⟩, true⟩ : InFlightLimit).reserved = true →
         (⟨⟨3, 2⟩, true⟩ : InFlightLimit).dropReleases = 1
         ∧ ((⟨⟨3, 2⟩, true⟩ : InFlightLimit).dropShared).curr
             = (⟨⟨3, 2⟩, true⟩ : InFlightLimit).shared.curr - 1
         ∧ ((⟨⟨3, 2⟩, true⟩ : InFlightLimit).dropShared).max
             = (⟨⟨3, 2⟩, true⟩ : InFlightLimit).shared.max)
       ∧ ((⟨⟨3, 2⟩, true⟩ : InFlightLimit).reserved = false →
          (⟨⟨3, 2⟩, true⟩ : InFlightLimit).dropReleases = 0
          ∧ (⟨⟨3, 2⟩, true⟩ : InFlightLimit).dropShared = (⟨⟨3, 2⟩, true⟩ : InFlightLimit).shared)
       ∧ ((⟨⟨3, 2⟩, true⟩ : InFlightLimit).cloneState).reserved = false
       ∧ ((⟨⟨3, 2⟩, true⟩ : InFlightLimit).cloneState).shared
           = (⟨⟨3, 2⟩, true⟩ : InFlightLimit).shared) :=
  ⟨by decide, inflight_state_drop_release ⟨⟨3, 2⟩, true⟩ (by decide)⟩

end InFlight

namespace RL

/-- The immutable `Rate` of tower-rate-limit: quota per window and window
length.  `Rate::new` asserts both are positive; time and durations are
modelled as abstract `Nat` instants. -/
structure Rate where
  num : Nat
  per : Nat
deriving DecidableEq

/-- The `State` of the limiter: `Limited(Delay)` carries the instant the
cooldown timer is armed for; `Ready { until, rem }` carries the window
end and the remaining tokens. -/
inductive State where
  | limited (wake : Nat)
  | ready (untilT : Nat) (rem : Nat)
deriving DecidableEq

/-- A `RateLimit` service (inner service abstracted away). -/
structure RateLimit where
  rate : Rate
  state : State
deriving DecidableEq

/-- Model of `RateLimit::call` at wall-clock instant `now`.  In the `Ready` branch
the source first executes

  if now >= until { until = now + self.rate.per;
                    let rem = self.rate.num;
                    self.state = State::Ready { until, rem } }

where the `let rem` binding shadows the destructured `rem` rather than
assigning it, and the state written here is overwritten by both branches
of the following `if rem > 1`, which read the stale outer `rem`.  The net
effect modelled below therefore updates `until` on a lazy roll but keeps
the old `rem`.  The returned flag records whether `inner.call` ran (it is
also whether the returned future holds `Some` inner future). -/
def RateLimit.call (s : RateLimit) (now : Nat) : RateLimit × Bool :=
  match s.state with
  | State.ready untilT rem =>
      let untilT' := if untilT ≤ now then now + s.rate.per else untilT
      if 1 < rem then (⟨s.rate, State.ready untilT' (rem - 1)⟩, true)
      else (⟨s.rate, State.limited untilT'⟩, true)
  | State.limited _ => (s, false)

/-- The boxed error surfaced by tower-rate-limit. -/
inductive RLError (E : Type) where
  | rateLimited
  | inner (e : E)
deriving DecidableEq

/-- Model of `ResponseFuture::poll` of tower-rate-limit: with `inner = Some(f)` it
delegates to `f` (converting the error); with `inner = None` it returns
the `RateLimitError`. -/
def rfPoll {V E : Type} (hasInner : Bool) (r : PollRes V E) : PollRes V (RLError E) :=
  if hasInner then
    match r with
    | PollRes.notReady => PollRes.notReady
    | PollRes.ready v => PollRes.ready v
    | PollRes.err e => PollRes.err (RLError.inner e)
  else PollRes.err RLError.rateLimited

/-- C1 (code bug): entering `call` in `Ready { until := 5, rem }` at
`now = 5 ≥ until` with quota 3 and window 10 should roll the window and
reset the remaining tokens, leaving `Ready { until := 15, rem := 2 }`
after the invocation consumes one unit.  Because the reset is shadowed,
the code instead keeps the stale `rem`: with `rem = 1` it transitions to
`Limited` and with `rem = 2` it leaves only one token, so fewer than
3 invocations succeed in the freshly rolled window. -/
theorem ratelimit_lazy_roll_stale_rem :
    RateLimit.call ⟨⟨3, 10⟩, State.ready 5 1⟩ 5 = (⟨⟨3, 10⟩, State.limited 15⟩, true)
    ∧ (RateLimit.call ⟨⟨3, 10⟩, State.ready 5 1⟩ 5).1.state ≠ State.ready 15 2
    ∧ RateLimit.call ⟨⟨3, 10⟩, State.ready 5 2⟩ 5 = (⟨⟨3, 10⟩, State.ready 15 1⟩, true)
    ∧ (RateLimit.call ⟨⟨3, 10⟩, State.ready 5 2⟩ 5).1.state ≠ State.ready 15 2 := by
  decide

/-- C7: an invocation entered while the limiter is `Limited` leaves the
state untouched, never calls the inner service, and returns a future
with `inner = None`, whose every poll resolves to the terminal
`RateLimitError`. -/
theorem ratelimit_call_limited {V E : Type} (s : RateLimit) (now wake : Nat)
    (r : PollRes V E) (h : s.state = State.limited wake) :
    s.call now = (s, false)
    ∧ rfPoll false r = (PollRes.err RLError.rateLimited : PollRes V (RLError E)) := by
  constructor
  · unfold RateLimit.call
    rw [h]
  · rfl

/-- Witness for C7: a limiter in cooldown until instant 15, invoked at
any instant, with an inner future that would be ready. -/
theorem ratelimit_call_limited_witness :
    ((⟨⟨3, 10⟩, State.limited 15⟩ : RateLimit).state = State.limited 15)
    ∧ ((⟨⟨3, 10⟩, State.limited 15⟩ : RateLimit).call 7 = (⟨⟨3, 10⟩, State.limited 15⟩, false)
       ∧ rfPoll false (PollRes.ready 4 : PollRes Nat Nat)
           = (PollRes.err RLError.rateLimited : PollRes Nat (RLError Nat))) :=
  ⟨rfl, ratelimit_call_limited ⟨⟨3, 10⟩, State.limited 15⟩ 7 15 (PollRes.ready 4) rfl⟩

end RL

namespace Timeout

/-- The error contract of tower-timeout: the `Elapsed` deadline error, a
converted inner error, or a converted timer error. -/
inductive TError (E F : Type) where
  | elapsed
  | inner (e : E)
  | timer (f : F)
deriving DecidableEq

/-- Model of `ResponseFuture::poll` of tower-timeout: poll the inner future first
and return its value or (converted) error if ready; only otherwise poll
the deadline timer, failing with `Elapsed` if it fired, propagating a
timer error, and staying pending if neither is ready. -/
def pollResponse {V E F : Type} (i : PollRes V E) (sl : PollRes Unit F) :
    PollRes V (TError E F) :=
  match i with
  | PollRes.ready v => PollRes.ready v
  | PollRes.err e => PollRes.err (TError.inner e)
  | PollRes.notReady =>
    match sl with
    | PollRes.notReady => PollRes.notReady
    | PollRes.ready _ => PollRes.err TError.elapsed
    | PollRes.err f => PollRes.err (TError.timer f)

/-- C5: inner completion always wins — a ready inner value or error is
returned whatever the timer state; `Elapsed` is produced exactly when the
inner future is pending and the timer has fired; and when neither is
ready the poll stays pending. -/
theorem timeout_inner_wins {V E F : Type} (v : V) (e : E) (i : PollRes V E)
    (sl : PollRes Unit F) :
    pollResponse (PollRes.ready v : PollRes V E) sl = PollRes.ready v
    ∧ pollResponse (PollRes.err e : PollRes V E) sl = PollRes.err (TError.inner e)
    ∧ (pollResponse i sl = PollRes.err TError.elapsed
        ↔ i = PollRes.notReady ∧ sl = PollRes.ready ())
    ∧ pollResponse (PollRes.notReady : PollRes V E) (PollRes.notReady : PollRes Unit F)
        = PollRes.notReady := by
  refine ⟨rfl, rfl, ?_, rfl⟩
  cases i <;> cases sl <;> simp [pollResponse]

/-- Witness for C5 with the timer fired and the inner future pending. -/
theorem timeout_inner_wins_witness :
    pollResponse (PollRes.ready 3 : PollRes Nat Nat) (PollRes.ready () : PollRes Unit Nat)
        = PollRes.ready 3
    ∧ pollResponse (PollRes.err 5 : PollRes Nat Nat) (PollRes.ready () : PollRes Unit Nat)
        = PollRes.err (TError.inner 5)
    ∧ (pollResponse (PollRes.notReady : PollRes Nat Nat) (PollRes.ready () : PollRes Unit Nat)
          = PollRes.err TError.elapsed
        ↔ (PollRes.notReady : PollRes Nat Nat) = PollRes.notReady
          ∧ (PollRes.ready () : PollRes Unit Nat) = PollRes.ready ())
    ∧ pollResponse (PollRes.notReady : PollRes Nat Nat) (PollRes.notReady : PollRes Unit Nat)
        = PollRes.notReady :=
  timeout_inner_wins 3 5 (PollRes.notReady : PollRes Nat Nat) (PollRes.ready ())

end Timeout

namespace Watch

/-- Modelled from the spec: the broadcast/subscription channel of the
external `futures_watch` crate (a collaborator of tower-watch, not part
of this repository).  The publisher holds the latest value and a
monotonic version; each subscriber tracks its own last-observed version;
the channel becomes permanently closed once the publisher is dropped,
which is not an error state. -/
structure Channel (T : Type) where
  value : T
  version : Nat
  closed : Bool
deriving DecidableEq

/-- Result of one non-blocking poll of the subscription: a newer value
was observed (`Ready(Some(()))`), the channel is closed with nothing
pending (`Ready(None)`), or no update yet (`NotReady`).  There is no
error constructor: per the spec, closure is not surfaced as an error. -/
inductive WPoll where
  | updated
  | closedCh
  | pending
deriving DecidableEq

/-- Modelled from the spec: polling the subscription first checks for a
newer version (so a value published before the drop but not yet observed
is still delivered after the drop), then for closure.  Returns the poll
result and the updated last-observed version. -/
def watchPoll {T : Type} (c : Channel T) (lastSeen : Nat) : WPoll × Nat :=
  if lastSeen < c.version then (WPoll.updated, c.version)
  else if c.closed then (WPoll.closedCh, lastSeen)
  else (WPoll.pending, lastSeen)

/-- The `WatchService` decorator state: the subscription position and the
currently installed inner handler built by the bind capability. -/
structure WatchService (T S : Type) where
  lastSeen : Nat
  inner : S

/-- Model of `WatchService::new`: bind the initial value of the watch. -/
def WatchService.new {T S : Type} (b : T → S) (c : Channel T) : WatchService T S :=
  ⟨c.version, b c.value⟩

/-- Model of `WatchService::poll_rebind` followed by the delegation in `poll_ready`:
if the subscription observed a newer value, rebuild the inner handler
from the current value; on `Ready(None)` (publisher gone) or `NotReady`
keep the current handler.  No error is produced. -/
def pollRebind {T S : Type} (b : T → S) (c : Channel T) (w : WatchService T S) :
    WatchService T S :=
  match watchPoll c w.lastSeen with
  | (WPoll.updated, ver) => ⟨ver, b c.value⟩
  | (WPoll.closedCh, _) => w
  | (WPoll.pending, _) => w

/-- An external event on the system: the publisher stores a new value,
the publisher is dropped, the caller runs a readiness check, or the
caller invokes (which only uses the installed handler). -/
inductive Ev (T : Type) where
  | publish (v : T)
  | close
  | check
  | invoke
deriving DecidableEq

/-- One event step on the pair (channel, decorator). -/
def stepEv {T S : Type} (b : T → S) (st : Channel T × WatchService T S) (e : Ev T) :
    Channel T × WatchService T S :=
  match e with
  | Ev.publish v => (⟨v, st.1.version + 1, st.1.closed⟩, st.2)
  | Ev.close => (⟨st.1.value, st.1.version, true⟩, st.2)
  | Ev.check => (st.1, pollRebind b st.1 st.2)
  | Ev.invoke => st

/-- Run a sequence of events. -/
def runEv {T S : Type} (b : T → S) (st : Channel T × WatchService T S) :
    List (Ev T) → Channel T × WatchService T S
  | [] => st
  | e :: rest => runEv b (stepEv b st e) rest

/-- Fresh system: a channel holding the initial value at version 0 and
the decorator built from it. -/
def initSys {T S : Type} (b : T → S) (v : T) : Channel T × WatchService T S :=
  (⟨v, 0, false⟩, WatchService.new b ⟨v, 0, false⟩)

/-- Whether the last event of the list is a readiness check. -/
def endsWithCheck {T : Type} : List (Ev T) → Bool
  | [] => false
  | [e] => (match e with | Ev.check => true | _ => false)
  | _ :: rest => endsWithCheck rest

/-- Whether an event is a publication. -/
def isPublish {T : Type} : Ev T → Bool
  | Ev.publish _ => true
  | _ => false

/-- No publication occurs in the list (the publisher is gone). -/
def noPublish {T : Type} (l : List (Ev T)) : Bool := l.all (fun e => !isPublish e)

lemma pollRebind_spec {T S : Type} (b : T → S) (c : Channel T) (w : WatchService T S) :
    (w.lastSeen < c.version ∧ pollRebind b c w = ⟨c.version, b c.value⟩)
    ∨ (¬ w.lastSeen < c.version ∧ pollRebind b c w = w) := by
  unfold pollRebind watchPoll
  by_cases h : w.lastSeen < c.version
  · rw [if_pos h]
    exact Or.inl ⟨h, rfl⟩
  · rw [if_neg h]
    by_cases h2 : c.closed
    · rw [if_pos h2]
      exact Or.inr ⟨h, rfl⟩
    · rw [if_neg h2]
      exact Or.inr ⟨h, rfl⟩

lemma step_le {T S : Type} (b : T → S) (st : Channel T × WatchService T S) (e : Ev T)
    (h1 : st.2.lastSeen ≤ st.1.version) :
    (stepEv b st e).2.lastSeen ≤ (stepEv b st e).1.version := by
  cases e with
  | publish v =>
    show st.2.lastSeen ≤ st.1.version + 1
    omega
  | close => exact h1
  | invoke => exact h1
  | check =>
    rcases pollRebind_spec b st.1 st.2 with ⟨_, heq⟩ | ⟨_, heq⟩
    · show (pollRebind b st.1 st.2).lastSeen ≤ st.1.version
      rw [heq]
    · show (pollRebind b st.1 st.2).lastSeen ≤ st.1.version
      rw [heq]
      exact h1

lemma inv_step {T S : Type} (b : T → S) (st : Channel T × WatchService T S) (e : Ev T)
    (h1 : st.2.lastSeen ≤ st.1.version)
    (h2 : st.2.lastSeen = st.1.version → st.2.inner = b st.1.value) :
    (stepEv b st e).2.lastSeen ≤ (stepEv b st e).1.version
    ∧ ((stepEv b st e).2.lastSeen = (stepEv b st e).1.version →
        (stepEv b st e).2.inner = b (stepEv b st e).1.value) := by
  refine ⟨step_le b st e h1, ?_⟩
  cases e with
  | publish v =>
    intro he
    have he' : st.2.lastSeen = st.1.version + 1 := he
    exfalso
    omega
  | close => exact h2
  | invoke => exact h2
  | check =>
    rcases pollRebind_spec b st.1 st.2 with ⟨_, heq⟩ | ⟨_, heq⟩
    · intro _
      show (pollRebind b st.1 st.2).inner = b st.1.value
      rw [heq]
    · intro he
      have he2 : (pollRebind b st.1 st.2).lastSeen = st.1.version := he
      rw [heq] at he2
      show (pollRebind b st.1 st.2).inner = b st.1.value
      rw [heq]
      exact h2 he2

lemma inv_run {T S : Type} (b : T → S) (evs : List (Ev T)) :
    ∀ st : Channel T × WatchService T S,
      st.2.lastSeen ≤ st.1.version →
      (st.2.lastSeen = st.1.version → st.2.inner = b st.1.value) →
      ((runEv b st evs).2.lastSeen ≤ (runEv b st evs).1.version
       ∧ ((runEv b st evs).2.lastSeen = (runEv b st evs).1.version →
           (runEv b st evs).2.inner = b (runEv b st evs).1.value)) := by
  induction evs with
  | nil =>
    intro st h1 h2
    exact ⟨h1, h2⟩
  | cons e rest ih =>
    intro st h1 h2
    have h := inv_step b st e h1 h2
    exact ih (stepEv b st e) h.1 h.2

lemma run_endsWithCheck {T S : Type} (b : T → S) (evs : List (Ev T)) :
    ∀ st : Channel T × WatchService T S,
      st.2.lastSeen ≤ st.1.version →
      endsWithCheck evs = true →
      (runEv b st evs).2.lastSeen = (runEv b st evs).1.version := by
  induction evs with
  | nil =>
    intro st _ hc
    simp [endsWithCheck] at hc
  | cons e rest ih =>
    intro st h1 hc
    cases rest with
    | nil =>
      cases e with
      | check =>
        rcases pollRebind_spec b st.1 st.2 with ⟨_, heq⟩ | ⟨hge, heq⟩
        · show (pollRebind b st.1 st.2).lastSeen = st.1.version
          rw [heq]
        · show (pollRebind b st.1 st.2).lastSeen = st.1.version
          rw [heq]
          omega
      | publish v => simp [endsWithCheck] at hc
      | close => simp [endsWithCheck] at hc
      | invoke => simp [endsWithCheck] at hc
    | cons e2 rest2 =>
      have hc' : endsWithCheck (e2 :: rest2) = true := hc
      exact ih (stepEv b st e) (step_le b st e h1) hc'

lemma run_noPublish_pinned {T S : Type} (b : T → S) (post : List (Ev T)) :
    ∀ st : Channel T × WatchService T S,
      st.2.lastSeen = st.1.version →
      noPublish post = true →
      (runEv b st post).2 = st.2 := by
  induction post with
  | nil =>
    intro st _ _
    rfl
  | cons e rest ih =>
    intro st he hp
    have hp2 : (!isPublish e) = true ∧ noPublish rest = true := by
      unfold noPublish at hp ⊢
      rw [List.all_cons, Bool.and_eq_true] at hp
      exact hp
    cases e with
    | publish v => simp [isPublish] at hp2
    | close => exact ih (stepEv b st Ev.close) he hp2.2
    | invoke => exact ih (stepEv b st Ev.invoke) he hp2.2
    | check =>
      rcases pollRebind_spec b st.1 st.2 with ⟨hlt, _⟩ | ⟨_, heq⟩
      · exfalso
        omega
      · have he' : (stepEv b st Ev.check).2.lastSeen = (stepEv b st Ev.check).1.version := by
          show (pollRebind b st.1 st.2).lastSeen = st.1.version
          rw [heq]
          exact he
        have h := ih (stepEv b st Ev.check) he' hp2.2
        exact h.trans heq

/-- C4 counterexample: with rebuild capability `fun n => n + 100`,
initial value 1, the trace publish 2, check, publish 5, drop publisher,
check, invoke dispatches the invocation to the handler built from 5 — the value pending at
the drop, delivered by the first check after it — and not from 2, the
last value observed by a check before the drop, as the claim requires. -/
theorem watch_pending_update_survives_close :
    (runEv (fun n => n + 100) (initSys (fun n => n + 100) 1)
       [Ev.publish 2, Ev.check, Ev.publish 5, Ev.close, Ev.check, Ev.invoke]).2.inner = 105
    ∧ (runEv (fun n => n + 100) (initSys (fun n => n + 100) 1)
         [Ev.publish 2, Ev.check, Ev.publish 5, Ev.close, Ev.check, Ev.invoke]).2.inner ≠ 102 := by
  constructor
  · rfl
  · decide

/-- C4 (amended): after every trace of publications, checks and
invocations ending in a readiness check, the installed inner handler is
the bind capability applied to the latest published value (the value
observed by that check); and from any such point on, once the publisher
is gone (no further publications), every later check — which raises no
error, the modelled subscription having no error outcome — and every
later invocation leaves the handler pinned to that last observed
value. -/
theorem watch_rebind_invariant {T S : Type} (b : T → S) (v : T) (evs post : List (Ev T))
    (h1 : endsWithCheck evs = true) (h2 : noPublish post = true) :
    (runEv b (initSys b v) evs).2.inner = b ((runEv b (initSys b v) evs).1).value
    ∧ (runEv b (runEv b (initSys b v) evs) post).2.inner
        = (runEv b (initSys b v) evs).2.inner := by
  have hinv := inv_run b evs (initSys b v) (Nat.le_refl 0) (fun _ => rfl)
  have hfull := run_endsWithCheck b evs (initSys b v) (Nat.le_refl 0) h1
  constructor
  · exact hinv.2 hfull
  · have h := run_noPublish_pinned b post (runEv b (initSys b v) evs) hfull h2
    exact congrArg (fun w => w.inner) h

/-- Witness for C4 (amended): initial value 1, publish 2 then check,
then the publisher drops and two more checks and an invocation occur. -/
theorem watch_rebind_invariant_witness :
    (endsWithCheck [Ev.publish 2, Ev.check] = true
      ∧ noPublish ([Ev.close, Ev.check, Ev.invoke, Ev.check] : List (Ev Nat)) = true)
    ∧ ((runEv (fun n => n + 100) (initSys (fun n => n + 100) 1)
          [Ev.publish 2, Ev.check]).2.inner
        = (fun n => n + 100)
            ((runEv (fun n => n + 100) (initSys (fun n => n + 100) 1)
               [Ev.publish 2, Ev.check]).1).value
       ∧ (runEv (fun n => n + 100)
            (runEv (fun n => n + 100) (initSys (fun n => n + 100) 1)
              [Ev.publish 2, Ev.check])
            [Ev.close, Ev.check, Ev.invoke, Ev.check]).2.inner
          = (runEv (fun n => n + 100) (initSys (fun n => n + 100) 1)
              [Ev.publish 2, Ev.check]).2.inner) :=
  ⟨⟨by decide, by decide⟩,
   watch_rebind_invariant (fun n => n + 100) 1 [Ev.publish 2, Ev.check]
     [Ev.close, Ev.check, Ev.invoke, Ev.check] (by decide) (by decide)⟩

end Watch
